import Mathlib

/-!
Verification development for a client-side carousel/slider widget.

The widget consists of DOM geometry helpers (getScroll, getOffset, getClient),
a Slider class (current-slide scan, next/previous click handlers) and an
AnimationController (an instance layer with animatingTo/cancel fields wrapping
a static timer-driven eased animation loop guarded by a flushed flag).

Numbers are modelled as rationals; raw DOM properties that may be undefined
are modelled as Option values; the event-driven animation loop is modelled as
an explicit state machine over lists of events.
-/

/-! ## DOM geometry model -/

/-- A DOM element as seen by the geometry helpers: each raw layout property
may be absent (undefined), modelled by an Option. -/
structure Elem where
  offsetTop : Option ℚ
  offsetLeft : Option ℚ
  offsetHeight : Option ℚ
  offsetWidth : Option ℚ
  clientTop : Option ℚ
  clientLeft : Option ℚ
  clientHeight : Option ℚ
  clientWidth : Option ℚ
  scrollTop : Option ℚ
  scrollLeft : Option ℚ
  scrollHeight : Option ℚ
  scrollWidth : Option ℚ
deriving DecidableEq

/-- The page-level scroll properties consulted by getScroll when called with
no element (window.pageYOffset, document.documentElement.*, document.body.*). -/
structure Doc where
  pageYOffset : Option ℚ
  pageXOffset : Option ℚ
  docScrollTop : Option ℚ
  docScrollLeft : Option ℚ
  docScrollHeight : Option ℚ
  docScrollWidth : Option ℚ
  bodyScrollTop : Option ℚ
  bodyScrollLeft : Option ℚ
  bodyScrollHeight : Option ℚ
  bodyScrollWidth : Option ℚ
deriving DecidableEq

/-- Result record of the geometry helpers: four plain numbers. -/
structure Rect where
  top : ℚ
  left : ℚ
  height : ℚ
  width : ℚ
deriving DecidableEq

/-- JavaScript truthiness of a possibly-undefined number: undefined and 0 are
falsy, every other number is truthy. -/
def truthy : Option ℚ → Bool
  | none => false
  | some v => decide (v ≠ 0)

/-- JavaScript a || b on possibly-undefined numbers. -/
def jsOr (a b : Option ℚ) : Option ℚ :=
  if truthy a then a else b

/-- JavaScript x || 0 on a possibly-undefined number: the value if truthy,
otherwise the literal 0. -/
def jsOrZero (a : Option ℚ) : ℚ :=
  if truthy a then a.getD 0 else 0

/-- getScroll: scroll values for an element (el branch) or for the page
(null branch, with the pageOffset/documentElement/body fallback chains). -/
def getScroll (doc : Doc) : Option Elem → Rect
  | some el =>
      { top := jsOrZero el.scrollTop
        left := jsOrZero el.scrollLeft
        height := jsOrZero el.scrollHeight
        width := jsOrZero el.scrollWidth }
  | none =>
      { top := jsOrZero (jsOr (jsOr doc.pageYOffset doc.docScrollTop) doc.bodyScrollTop)
        left := jsOrZero (jsOr (jsOr doc.pageXOffset doc.docScrollLeft) doc.bodyScrollLeft)
        height := jsOrZero (jsOr doc.docScrollHeight doc.bodyScrollHeight)
        width := jsOrZero (jsOr doc.docScrollWidth doc.bodyScrollWidth) }

/-- getOffset: offset values for an element, each raw property coerced with
|| 0. -/
def getOffset (el : Elem) : Rect :=
  { top := jsOrZero el.offsetTop
    left := jsOrZero el.offsetLeft
    height := jsOrZero el.offsetHeight
    width := jsOrZero el.offsetWidth }

/-- getClient: client values for an element, each raw property coerced with
|| 0. -/
def getClient (el : Elem) : Rect :=
  { top := jsOrZero el.clientTop
    left := jsOrZero el.clientLeft
    height := jsOrZero el.clientHeight
    width := jsOrZero el.clientWidth }

/-! ## Easing -/

/-- AnimationController.easeInOutCubic, exactly as in the source:
x < 0.5 ? 4 * x * x * x : 1 - Math.pow(-2 * x + 2, 3) / 2. -/
def easeInOutCubic (x : ℚ) : ℚ :=
  if x < 1/2 then 4 * x * x * x else 1 - (-2 * x + 2)^3 / 2

/-! ## Static animation loop (AnimationController.animate, static)

The static animate sets up: begin = Date.now(), end = begin + duration, a
fallback setTimeout(endAnimation, duration), a first requestAnimationFrame
for tick, and a flushed flag; it returns endAnimation.  We model the closure
state (which timers are pending, whether the final callback was flushed) and
treat timer/frame firings and external calls of the returned endAnimation as
events. -/

/-- Closure state of one static animation: the pending-rAF marker, the
pending-timeout marker and the flushed flag. -/
structure SAnim where
  tickActive : Bool
  timeoutActive : Bool
  flushed : Bool
deriving DecidableEq

/-- State right after the static animate call: timeout set, first frame
requested, nothing flushed yet. -/
def SAnim.start : SAnim := ⟨true, true, false⟩

/-- One invocation of the callback passed to the static animate: either a
tick-loop invocation carrying the eased fraction, or the final invocation
setCallback(1) performed by endAnimation. -/
inductive Emission where
  | tick (v : ℚ)
  | final
deriving DecidableEq

/-- endAnimation: clearTimeout, cancelAnimationFrame, and if not yet flushed
invoke setCallback(1) and set the flushed flag. -/
def endAnimationS (s : SAnim) : SAnim × Option Emission :=
  (⟨false, false, true⟩, if s.flushed then none else some Emission.final)

/-- Events a single static animation can experience: the fallback timeout
firing, an animation frame firing at time now, or an external call of the
returned endAnimation function. -/
inductive SEv where
  | timeout
  | frame (now : ℕ)
  | cancelCall
deriving DecidableEq

/-- The elapsed fraction (now - begin) / duration computed by tick. -/
def fracOf (tBegin tDur now : ℕ) : ℚ :=
  ((now : ℚ) - (tBegin : ℚ)) / (tDur : ℚ)

/-- One event of the static animation loop.  A timeout or frame event fires
only if the corresponding marker is still pending; tick re-requests a frame
after a non-final callback, exactly as in the source. -/
def stepS (ease : ℚ → ℚ) (tBegin tDur : ℕ) (s : SAnim) : SEv → SAnim × Option Emission
  | SEv.timeout => if s.timeoutActive then endAnimationS s else (s, none)
  | SEv.cancelCall => endAnimationS s
  | SEv.frame now =>
      if s.tickActive then
        if tBegin + tDur ≤ now then
          endAnimationS ⟨false, s.timeoutActive, s.flushed⟩
        else if s.flushed then
          (⟨false, s.timeoutActive, s.flushed⟩, none)
        else
          (⟨true, s.timeoutActive, s.flushed⟩, some (Emission.tick (ease (fracOf tBegin tDur now))))
      else (s, none)

/-- Run a static animation through a list of events, collecting the callback
invocations in order. -/
def runS (ease : ℚ → ℚ) (tBegin tDur : ℕ) : SAnim → List SEv → SAnim × List Emission
  | s, [] => (s, [])
  | s, e :: es =>
      let p := stepS ease tBegin tDur s e
      let r := runS ease tBegin tDur p.1 es
      (r.1, p.2.toList ++ r.2)

/-- The value the instance-level callback hands to setFunction for a given
static-loop invocation: from + (to - from) * percent, where the final
invocation carries percent 1. -/
def emissionValue (src dst : ℚ) : Emission → ℚ
  | Emission.tick v => src + (dst - src) * v
  | Emission.final => src + (dst - src) * 1

/-! ## Instance-level AnimationController

The instance keeps the fields animatingTo and cancel, and each call of the
instance animate creates one static animation whose callback closes over the
instance.  We record every static animation ever created in a list (its
position is its identity), and model the cancel field as the position of the
animation whose endAnimation is currently stored in it. -/

/-- One static animation created by an instance animate call: the from/to
values captured by the instance callback, the begin time and duration, and
the closure state of the static loop. -/
structure AnimRec where
  src : ℚ
  dst : ℚ
  tBegin : ℕ
  tDur : ℕ
  s : SAnim
deriving DecidableEq

/-- The AnimationController instance state: the animatingTo field, the cancel
field (as the index of the animation whose endAnimation it stores, none for
null), and all static animations created so far. -/
structure Ctrl where
  animatingTo : Option ℚ
  cancelIdx : Option ℕ
  anims : List AnimRec
deriving DecidableEq

/-- A freshly constructed AnimationController: both fields null. -/
def Ctrl.startCtrl : Ctrl := ⟨none, none, []⟩

/-- The isAnimating getter: animatingTo != null. -/
def Ctrl.isAnimating (c : Ctrl) : Bool := c.animatingTo.isSome

/-- Field effect of the instance callback: when called with percent 1 it
nulls animatingTo and cancel, otherwise it leaves them unchanged. -/
def instCbSt (c : Ctrl) (p : ℚ) : Ctrl :=
  if p = 1 then { c with animatingTo := none, cancelIdx := none } else c

/-- endAnimation of animation i, acting on the whole instance: the static
markers of animation i are cleared and it becomes flushed; if it was not yet
flushed, the instance callback runs with percent 1 (nulling the instance
fields) and setFunction receives src + (dst - src) * 1. -/
def endAnimC (c : Ctrl) (i : ℕ) (rec : AnimRec) : Ctrl × List (ℕ × ℚ) :=
  let c1 : Ctrl := { c with anims := c.anims.set i { rec with s := ⟨false, false, true⟩ } }
  if rec.s.flushed then (c1, [])
  else (instCbSt c1 1, [(i, rec.src + (rec.dst - rec.src) * 1)])

/-- Events of the whole instance: an instance animate call, and the timeout,
frame and external-cancel events of each static animation. -/
inductive CEv where
  | animate (src dst : ℚ) (tB tD : ℕ)
  | timeout (i : ℕ)
  | frame (i : ℕ) (now : ℕ)
  | cancelCall (i : ℕ)
deriving DecidableEq

/-- One event of the instance.  An animate call first runs this.cancel() if
it is set, then sets animatingTo and stores the new static animation's
endAnimation in cancel; timer and frame events are delivered to the named
static animation and run the instance callback with the eased fraction. -/
def stepC (ease : ℚ → ℚ) (c : Ctrl) : CEv → Ctrl × List (ℕ × ℚ)
  | CEv.animate src dst tB tD =>
      let pre : Ctrl × List (ℕ × ℚ) :=
        match c.cancelIdx with
        | some i =>
            match c.anims.get? i with
            | some rec => endAnimC c i rec
            | none => (c, [])
        | none => (c, [])
      ({ pre.1 with
          animatingTo := some dst
          cancelIdx := some pre.1.anims.length
          anims := pre.1.anims ++ [⟨src, dst, tB, tD, SAnim.start⟩] }, pre.2)
  | CEv.timeout i =>
      match c.anims.get? i with
      | some rec => if rec.s.timeoutActive then endAnimC c i rec else (c, [])
      | none => (c, [])
  | CEv.cancelCall i =>
      match c.anims.get? i with
      | some rec => endAnimC c i rec
      | none => (c, [])
  | CEv.frame i now =>
      match c.anims.get? i with
      | some rec =>
          if rec.s.tickActive then
            let rec1 : AnimRec := { rec with s := ⟨false, rec.s.timeoutActive, rec.s.flushed⟩ }
            let c0 : Ctrl := { c with anims := c.anims.set i rec1 }
            if rec.tBegin + rec.tDur ≤ now then
              endAnimC c0 i rec1
            else if rec.s.flushed then
              (c0, [])
            else
              let p := ease (fracOf rec.tBegin rec.tDur now)
              let c2 := instCbSt c0 p
              ({ c2 with anims := c2.anims.set i { rec with s := ⟨true, rec.s.timeoutActive, false⟩ } },
               [(i, rec.src + (rec.dst - rec.src) * p)])
          else (c, [])
      | none => (c, [])

/-- Run the instance through a list of events, collecting all setFunction
invocations as pairs of the animation index and the value passed. -/
def runC (ease : ℚ → ℚ) : Ctrl → List CEv → Ctrl × List (ℕ × ℚ)
  | c, [] => (c, [])
  | c, e :: es =>
      let p := stepC ease c e
      let r := runC ease p.1 es
      (r.1, p.2 ++ r.2)

/-! ## Slider -/

/-- The Slider state relevant to the slide-index logic: the slide list in
construction order, the container's actual scrollLeft, and the animation
controller's animatingTo field. -/
structure SliderSt where
  slides : List Elem
  scrollLeft : ℚ
  animatingTo : Option ℚ
deriving DecidableEq

/-- The effective scroll position used by currentElement: the in-flight
animation target when isAnimating, else the container's actual scrollLeft. -/
def effectiveScroll (s : SliderSt) : ℚ :=
  match s.animatingTo with
  | some t => t
  | none => s.scrollLeft

/-- The currentElement getter: scan the slides in order and return the first
whose left offset is at least the effective scroll position; throw
Error("Bad state") if none qualifies. -/
def currentElement (s : SliderSt) : Except String Elem :=
  match s.slides.find? (fun e => decide (effectiveScroll s ≤ (getOffset e).left)) with
  | some e => Except.ok e
  | none => Except.error "Bad state"

/-- Array.prototype.indexOf: the index of the first occurrence, or -1. -/
def jsIndexOf : List Elem → Elem → ℤ
  | [], _ => -1
  | x :: xs, e =>
      if x = e then 0
      else if jsIndexOf xs e = -1 then -1 else jsIndexOf xs e + 1

/-- JavaScript array subscripting with an integer index: undefined (none)
outside the bounds. -/
def jsIndex (l : List Elem) (i : ℤ) : Option Elem :=
  if 0 ≤ i then l.get? i.toNat else none

/-- The nextElement getter: the slide after currentElement, or null at the
end (next ? next : null; elements are truthy, undefined is falsy); a throw
from currentElement propagates. -/
def nextElement (s : SliderSt) : Except String (Option Elem) :=
  match currentElement s with
  | Except.ok cur => Except.ok (jsIndex s.slides (jsIndexOf s.slides cur + 1))
  | Except.error msg => Except.error msg

/-- The previousElement getter: the slide before currentElement, or null at
the start; a throw from currentElement propagates. -/
def previousElement (s : SliderSt) : Except String (Option Elem) :=
  match currentElement s with
  | Except.ok cur => Except.ok (jsIndex s.slides (jsIndexOf s.slides cur - 1))
  | Except.error msg => Except.error msg

/-- The fixed transition duration of the Slider, in milliseconds. -/
def transitionDuration : ℕ := 1000

/-- The arguments the Slider passes to AnimationController.animate: from the
container's current scrollLeft, to the requested position, over the fixed
transition duration. -/
structure AnimCmd where
  src : ℚ
  dst : ℚ
  duration : ℕ
deriving DecidableEq

/-- Slider.scrollTo: animate the container's scrollLeft from its current
value to the given position over transitionDuration. -/
def scrollTo (s : SliderSt) (toPos : ℚ) : AnimCmd :=
  ⟨s.scrollLeft, toPos, transitionDuration⟩

/-- The next-button click handler: if nextElement is non-null, scroll to its
left offset; otherwise do nothing. -/
def onNextClick (s : SliderSt) : Except String (Option AnimCmd) :=
  match nextElement s with
  | Except.ok (some e) => Except.ok (some (scrollTo s (getOffset e).left))
  | Except.ok none => Except.ok none
  | Except.error msg => Except.error msg

/-- The previous-button click handler: if previousElement is non-null, scroll
to its left offset; otherwise do nothing. -/
def onPreviusClick (s : SliderSt) : Except String (Option AnimCmd) :=
  match previousElement s with
  | Except.ok (some e) => Except.ok (some (scrollTo s (getOffset e).left))
  | Except.ok none => Except.ok none
  | Except.error msg => Except.error msg

/-! ## Easing lemmas -/

lemma cube_le_cube {a b : ℚ} (ha : 0 ≤ a) (hab : a ≤ b) : a^3 ≤ b^3 := by
  nlinarith [sq_nonneg a, sq_nonneg b, sq_nonneg (a + b), sq_nonneg (a - b),
    mul_nonneg ha (ha.trans hab)]

lemma easeInOutCubic_mono {x y : ℚ} (hx : 0 ≤ x) (hxy : x ≤ y) (hy : y ≤ 1) :
    easeInOutCubic x ≤ easeInOutCubic y := by
  unfold easeInOutCubic
  split_ifs with h1 h2 h2
  · have : x^3 ≤ y^3 := cube_le_cube hx hxy
    nlinarith
  · have hxc : x^3 ≤ (1/2 : ℚ)^3 := cube_le_cube hx (le_of_lt h1)
    have hyc : (-2 * y + 2)^3 ≤ 1 := by nlinarith [sq_nonneg (-2 * y + 2)]
    nlinarith
  · linarith
  · have : (-2 * y + 2)^3 ≤ (-2 * x + 2)^3 := by
      have h2y : (0 : ℚ) ≤ -2 * y + 2 := by linarith
      have : -2 * y + 2 ≤ -2 * x + 2 := by linarith
      exact cube_le_cube h2y this
    linarith

/-- Every eased fraction strictly before the end stays below 1: needed to
show a tick-loop invocation never masquerades as the final one. -/
lemma easeInOutCubic_ne_one {q : ℚ} (hq : q < 1) : easeInOutCubic q ≠ 1 := by
  unfold easeInOutCubic
  split_ifs with h1
  · intro h
    have hf : (0 : ℚ) < 1/2 - q := by linarith
    have hs : (0 : ℚ) < q^2 + q/2 + 1/4 := by nlinarith [sq_nonneg (q + 1/4)]
    nlinarith [mul_pos hf hs]
  · intro h
    have h2 : (-2 * q + 2)^3 = 0 := by linarith
    have h3 : (0 : ℚ) < -2 * q + 2 := by linarith
    exact absurd h2 (ne_of_gt (pow_pos h3 3))

/-- C5: easeInOutCubic equals 4x^3 below 1/2 and 1 - (-2x+2)^3/2 from 1/2 on;
it takes the values 0, 1/2 and 1 at 0, 1/2 and 1, and it is monotonically
non-decreasing on the interval from 0 to 1. -/
theorem easeInOutCubic_spec :
    (∀ x : ℚ, x < 1/2 → easeInOutCubic x = 4 * x^3) ∧
    (∀ x : ℚ, ¬ x < 1/2 → easeInOutCubic x = 1 - (-2 * x + 2)^3 / 2) ∧
    easeInOutCubic 0 = 0 ∧ easeInOutCubic (1/2) = 1/2 ∧ easeInOutCubic 1 = 1 ∧
    (∀ x y : ℚ, 0 ≤ x → x ≤ y → y ≤ 1 → easeInOutCubic x ≤ easeInOutCubic y) := by
  refine ⟨fun x hx => ?_, fun x hx => ?_, by norm_num [easeInOutCubic],
    by norm_num [easeInOutCubic], by norm_num [easeInOutCubic],
    fun x y hx hxy hy => easeInOutCubic_mono hx hxy hy⟩
  · rw [easeInOutCubic, if_pos hx]; ring
  · rw [easeInOutCubic, if_neg hx]

/-- Concrete instantiation of the easing specification at 1/4 and 3/4. -/
theorem easeInOutCubic_spec_witness :
    easeInOutCubic (1/4) = 4 * (1/4 : ℚ)^3 ∧
    easeInOutCubic (3/4) = 1 - (-2 * (3/4 : ℚ) + 2)^3 / 2 ∧
    easeInOutCubic (1/4) ≤ easeInOutCubic (3/4) :=
  ⟨easeInOutCubic_spec.1 (1/4) (by norm_num),
   easeInOutCubic_spec.2.1 (3/4) (by norm_num),
   easeInOutCubic_spec.2.2.2.2.2 (1/4) (3/4) (by norm_num) (by norm_num) (by norm_num)⟩

/-! ## Geometry lemmas -/

lemma jsOrZero_eq_getD (o : Option ℚ) : jsOrZero o = o.getD 0 := by
  rcases o with _ | v
  · rfl
  · by_cases h : v = 0
    · simp [jsOrZero, truthy, h]
    · simp [jsOrZero, truthy, h]

/-- C10: getScroll, getOffset and getClient are total: every field of the
returned record is the value of the underlying raw property when it is
present, and 0 when it is absent; in the page branch of getScroll a field is
0 whenever every property in its fallback chain is falsy. -/
theorem geometry_getters_total (doc : Doc) (el : Elem) :
    ((getOffset el).top = el.offsetTop.getD 0 ∧
     (getOffset el).left = el.offsetLeft.getD 0 ∧
     (getOffset el).height = el.offsetHeight.getD 0 ∧
     (getOffset el).width = el.offsetWidth.getD 0) ∧
    ((getClient el).top = el.clientTop.getD 0 ∧
     (getClient el).left = el.clientLeft.getD 0 ∧
     (getClient el).height = el.clientHeight.getD 0 ∧
     (getClient el).width = el.clientWidth.getD 0) ∧
    ((getScroll doc (some el)).top = el.scrollTop.getD 0 ∧
     (getScroll doc (some el)).left = el.scrollLeft.getD 0 ∧
     (getScroll doc (some el)).height = el.scrollHeight.getD 0 ∧
     (getScroll doc (some el)).width = el.scrollWidth.getD 0) ∧
    ((truthy doc.pageYOffset = false → truthy doc.docScrollTop = false →
        truthy doc.bodyScrollTop = false → (getScroll doc none).top = 0) ∧
     (truthy doc.pageXOffset = false → truthy doc.docScrollLeft = false →
        truthy doc.bodyScrollLeft = false → (getScroll doc none).left = 0) ∧
     (truthy doc.docScrollHeight = false → truthy doc.bodyScrollHeight = false →
        (getScroll doc none).height = 0) ∧
     (truthy doc.docScrollWidth = false → truthy doc.bodyScrollWidth = false →
        (getScroll doc none).width = 0)) := by
  refine ⟨⟨jsOrZero_eq_getD _, jsOrZero_eq_getD _, jsOrZero_eq_getD _, jsOrZero_eq_getD _⟩,
    ⟨jsOrZero_eq_getD _, jsOrZero_eq_getD _, jsOrZero_eq_getD _, jsOrZero_eq_getD _⟩,
    ⟨jsOrZero_eq_getD _, jsOrZero_eq_getD _, jsOrZero_eq_getD _, jsOrZero_eq_getD _⟩,
    ⟨fun h1 h2 h3 => ?_, fun h1 h2 h3 => ?_, fun h1 h2 => ?_, fun h1 h2 => ?_⟩⟩ <;>
  simp [getScroll, jsOr, jsOrZero, h1, h2]
  · simp [h3]
  · simp [h3]

/-! ## Static animation loop lemmas -/

lemma stepS_of_flushed (ease : ℚ → ℚ) (tB tD : ℕ) (s : SAnim) (e : SEv)
    (hf : s.flushed = true) :
    (stepS ease tB tD s e).2 = none ∧ (stepS ease tB tD s e).1.flushed = true := by
  cases e <;> simp only [stepS, endAnimationS, hf] <;>
    repeat' split <;> simp_all

lemma runS_of_flushed (ease : ℚ → ℚ) (tB tD : ℕ) (evs : List SEv) :
    ∀ s : SAnim, s.flushed = true →
      (runS ease tB tD s evs).2 = [] ∧ (runS ease tB tD s evs).1.flushed = true := by
  induction evs with
  | nil => intro s hf; exact ⟨rfl, hf⟩
  | cons e es ih =>
      intro s hf
      have hs := stepS_of_flushed ease tB tD s e hf
      have hr := ih (stepS ease tB tD s e).1 hs.2
      simp only [runS]
      exact ⟨by rw [hs.1, hr.1]; rfl, hr.2⟩

lemma stepS_flushed_char (ease : ℚ → ℚ) (tB tD : ℕ) (s : SAnim) (e : SEv) :
    (stepS ease tB tD s e).1.flushed = true ↔
      (s.flushed = true ∨ (stepS ease tB tD s e).2 = some Emission.final) := by
  cases e <;> simp only [stepS, endAnimationS] <;>
    repeat' split <;> simp_all

lemma runS_final_spec (ease : ℚ → ℚ) (tB tD : ℕ) (evs : List SEv) :
    ∀ s : SAnim, s.flushed = false →
      ((runS ease tB tD s evs).1.flushed = true ↔
          Emission.final ∈ (runS ease tB tD s evs).2) ∧
      (runS ease tB tD s evs).2.count Emission.final ≤ 1 ∧
      (runS ease tB tD s evs).2.dropLast.count Emission.final = 0 := by
  induction evs with
  | nil =>
      intro s hf
      simp [runS, hf]
  | cons e es ih =>
      intro s hf
      rcases hstep : (stepS ease tB tD s e).2 with _ | em
      · have hfl : (stepS ease tB tD s e).1.flushed = false := by
          rcases hb : (stepS ease tB tD s e).1.flushed with _ | _
          · rfl
          · rcases (stepS_flushed_char ease tB tD s e).mp hb with h | h
            · rw [hf] at h; cases h
            · rw [hstep] at h; cases h
        have := ih (stepS ease tB tD s e).1 hfl
        simpa [runS, hstep] using this
      · cases em with
        | final =>
            have hfl : (stepS ease tB tD s e).1.flushed = true :=
              (stepS_flushed_char ease tB tD s e).mpr (Or.inr hstep)
            have hr := runS_of_flushed ease tB tD es (stepS ease tB tD s e).1 hfl
            simp [runS, hstep, hr.1, hr.2]
        | tick v =>
            have hfl : (stepS ease tB tD s e).1.flushed = false := by
              rcases hb : (stepS ease tB tD s e).1.flushed with _ | _
              · rfl
              · rcases (stepS_flushed_char ease tB tD s e).mp hb with h | h
                · rw [hf] at h; cases h
                · rw [hstep] at h; cases h
            have ihs := ih (stepS ease tB tD s e).1 hfl
            have htr :
                (runS ease tB tD s (e :: es)).2 =
                  Emission.tick v :: (runS ease tB tD (stepS ease tB tD s e).1 es).2 := by
              simp [runS, hstep]
            have hst :
                (runS ease tB tD s (e :: es)).1 =
                  (runS ease tB tD (stepS ease tB tD s e).1 es).1 := by
              simp [runS]
            rw [htr, hst]
            refine ⟨by simpa using ihs.1, by simpa using ihs.2.1, ?_⟩
            rcases hr2 : (runS ease tB tD (stepS ease tB tD s e).1 es).2 with _ | ⟨a, l⟩
            · simp
            · have := ihs.2.2
              rw [hr2] at this
              simpa [List.dropLast_cons_of_ne_nil] using this

/-- C9: across any sequence of timeout firings, animation-frame firings and
invocations of the returned endAnimation function, the callback is invoked
with the final fraction 1 at most once, and no callback invocation of any
kind occurs after that final call (the final invocation can only be the last
one in the trace). -/
theorem endAnimation_idempotent (ease : ℚ → ℚ) (tB tD : ℕ) (evs : List SEv) :
    (runS ease tB tD SAnim.start evs).2.count Emission.final ≤ 1 ∧
    (runS ease tB tD SAnim.start evs).2.dropLast.count Emission.final = 0 :=
  ⟨(runS_final_spec ease tB tD evs SAnim.start rfl).2.1,
   (runS_final_spec ease tB tD evs SAnim.start rfl).2.2⟩

/-- C1: whenever a run of animate(setFn, from, to, duration) completes (the
flushed flag is set, by the tick loop reaching the end time, by the fallback
timer, or by an endAnimation call, whichever occurs first), the last value
passed to setFn is exactly `to`. -/
theorem animate_final_value (ease : ℚ → ℚ) (src dst : ℚ) (tB tD : ℕ) (evs : List SEv)
    (h : (runS ease tB tD SAnim.start evs).1.flushed = true) :
    ((runS ease tB tD SAnim.start evs).2.map (emissionValue src dst)).getLast? =
      some dst := by
  obtain ⟨hiff, _, hlast⟩ := runS_final_spec ease tB tD evs SAnim.start rfl
  have hmem : Emission.final ∈ (runS ease tB tD SAnim.start evs).2 := hiff.mp h
  set tr := (runS ease tB tD SAnim.start evs).2 with htr
  have hne : tr ≠ [] := List.ne_nil_of_mem hmem
  have hsplit : tr.dropLast ++ [tr.getLast hne] = tr := List.dropLast_append_getLast hne
  have hnotin : Emission.final ∉ tr.dropLast := List.count_eq_zero.mp hlast
  have hlast_eq : tr.getLast hne = Emission.final := by
    rw [← hsplit] at hmem
    rcases List.mem_append.mp hmem with hin | hin
    · exact absurd hin hnotin
    · exact (List.mem_singleton.mp hin).symm
  have : tr.map (emissionValue src dst) =
      tr.dropLast.map (emissionValue src dst) ++ [emissionValue src dst Emission.final] := by
    conv_lhs => rw [← hsplit]
    rw [List.map_append, hlast_eq]
    rfl
  rw [this, List.getLast?_concat]
  have : emissionValue src dst Emission.final = dst := by
    simp only [emissionValue]; ring
  rw [this]

/-- Concrete instantiation of the final-value theorem: a run of
animate from 2 to 5 over 100ms ended by the fallback timer delivers 5 last. -/
theorem animate_final_value_witness :
    ((runS easeInOutCubic 0 100 SAnim.start [SEv.timeout]).2.map
        (emissionValue 2 5)).getLast? = some 5 :=
  animate_final_value easeInOutCubic 2 5 0 100 [SEv.timeout] (by decide)

/-! ## Slider lemmas -/

lemma find?_first {α : Type} (p : α → Bool) (l : List α) (a : α)
    (h : l.find? p = some a) :
    ∃ pre suf, l = pre ++ a :: suf ∧ ∀ x ∈ pre, p x = false := by
  induction l with
  | nil => cases h
  | cons x xs ih =>
      by_cases hp : p x
      · rw [List.find?_cons_of_pos _ hp] at h
        obtain rfl := Option.some_inj.mp h
        exact ⟨[], xs, rfl, by simp⟩
      · rw [List.find?_cons_of_neg _ hp] at h
        obtain ⟨pre, suf, heq, hall⟩ := ih h
        refine ⟨x :: pre, suf, by rw [heq]; rfl, ?_⟩
        intro y hy
        rcases List.mem_cons.mp hy with rfl | hy
        · simpa using hp
        · exact hall y hy

/-- C2: currentElement returns the first slide in construction order whose
left offset is at least the effective scroll position (the in-flight target
when animating, else the actual scrollLeft), and throws exactly when no
slide satisfies that condition. -/
theorem currentElement_spec (s : SliderSt) :
    (∀ e : Elem, currentElement s = Except.ok e →
        effectiveScroll s ≤ (getOffset e).left ∧
        ∃ pre suf, s.slides = pre ++ e :: suf ∧
          ∀ p ∈ pre, (getOffset p).left < effectiveScroll s) ∧
    ((∃ msg, currentElement s = Except.error msg) ↔
        ∀ e ∈ s.slides, (getOffset e).left < effectiveScroll s) := by
  constructor
  · intro e he
    rcases hf : s.slides.find?
        (fun e => decide (effectiveScroll s ≤ (getOffset e).left)) with _ | e0
    · rw [currentElement, hf] at he; cases he
    · rw [currentElement, hf] at he
      obtain rfl := Except.ok.inj he
      have hp := List.find?_some hf
      refine ⟨of_decide_eq_true hp, ?_⟩
      obtain ⟨pre, suf, heq, hall⟩ := find?_first _ _ _ hf
      refine ⟨pre, suf, heq, fun p hp => ?_⟩
      have := hall p hp
      exact lt_of_not_le (of_decide_eq_false this)
  · constructor
    · rintro ⟨msg, hmsg⟩ e he
      rcases hf : s.slides.find?
          (fun e => decide (effectiveScroll s ≤ (getOffset e).left)) with _ | e0
      · have := List.find?_eq_none.mp hf e he
        exact lt_of_not_le (fun hle => this (decide_eq_true hle))
      · rw [currentElement, hf] at hmsg; cases hmsg
    · intro hall
      refine ⟨"Bad state", ?_⟩
      rw [currentElement, List.find?_eq_none.mpr ?_]
      intro e he
      simpa using not_le.mpr (hall e he)

/-- Array.prototype.indexOf finds the position of an element of a duplicate
free list. -/
lemma jsIndexOf_get? (l : List Elem) (n : ℕ) (e : Elem) (hnd : l.Nodup)
    (h : l.get? n = some e) : jsIndexOf l e = n := by
  induction l generalizing n with
  | nil => cases h
  | cons x xs ih =>
      cases n with
      | zero =>
          obtain rfl : x = e := Option.some_inj.mp h
          simp [jsIndexOf]
      | succ n =>
          have hmem : e ∈ xs := List.get?_mem h
          have hx : ¬ x = e := by
            rintro rfl
            exact (List.nodup_cons.mp hnd).1 hmem
          have hxs : jsIndexOf xs e = n := ih n (List.nodup_cons.mp hnd).2 h
          rw [jsIndexOf, if_neg hx, hxs, if_neg (by omega)]
          push_cast
          ring

/-- C4: when currentElement is the last slide, a next click is a no-op (no
animation command is issued); when currentElement is the first slide, a
previous click is a no-op. -/
theorem click_noop_at_ends (s : SliderSt) (e : Elem) (hnd : s.slides.Nodup)
    (hc : currentElement s = Except.ok e) :
    (s.slides.getLast? = some e → onNextClick s = Except.ok none) ∧
    (s.slides.head? = some e → onPreviusClick s = Except.ok none) := by
  constructor
  · intro hlast
    have hne : s.slides ≠ [] := by
      intro h
      rw [h] at hlast; cases hlast
    have hlen : 1 ≤ s.slides.length := List.length_pos.mpr hne
    have hget : s.slides.get? (s.slides.length - 1) = some e := by
      rw [← List.getLast?_eq_get?]; exact hlast
    have hidx : jsIndexOf s.slides e = ((s.slides.length - 1 : ℕ) : ℤ) :=
      jsIndexOf_get? _ _ _ hnd hget
    have hj : jsIndex s.slides (((s.slides.length - 1 : ℕ) : ℤ) + 1) = none := by
      rw [jsIndex, if_pos (by omega)]
      have h1 : (((s.slides.length - 1 : ℕ) : ℤ) + 1).toNat = s.slides.length := by
        omega
      rw [h1]
      exact List.get?_eq_none.mpr (le_refl _)
    simp only [onNextClick, nextElement, hc, hidx, hj]
  · intro hhead
    have hget : s.slides.get? 0 = some e := by
      rcases hl : s.slides with _ | ⟨x, xs⟩
      · rw [hl] at hhead; cases hhead
      · rw [hl] at hhead
        simpa using hhead
    have hidx : jsIndexOf s.slides e = ((0 : ℕ) : ℤ) :=
      jsIndexOf_get? _ _ _ hnd hget
    have hj : jsIndex s.slides (((0 : ℕ) : ℤ) - 1) = none := by
      rw [jsIndex, if_neg (by omega)]
    simp only [onPreviusClick, previousElement, hc, hidx, hj]

/-- C7: a next click with an adjacent slide present starts an animation of
the container's scroll from its current scrollLeft to that slide's left
offset over 1000 milliseconds, advancing exactly one slide; symmetrically
for a previous click. -/
theorem click_starts_animation (s : SliderSt) (e : Elem) (i : ℕ)
    (hnd : s.slides.Nodup) (hc : currentElement s = Except.ok e)
    (hi : s.slides.get? i = some e) :
    (∀ e2, s.slides.get? (i + 1) = some e2 →
        onNextClick s = Except.ok (some ⟨s.scrollLeft, (getOffset e2).left, 1000⟩)) ∧
    (∀ e2, 1 ≤ i → s.slides.get? (i - 1) = some e2 →
        onPreviusClick s = Except.ok (some ⟨s.scrollLeft, (getOffset e2).left, 1000⟩)) := by
  have hidx : jsIndexOf s.slides e = (i : ℤ) := jsIndexOf_get? _ _ _ hnd hi
  constructor
  · intro e2 h2
    have hj : jsIndex s.slides ((i : ℤ) + 1) = some e2 := by
      rw [jsIndex, if_pos (by omega)]
      have h1 : ((i : ℤ) + 1).toNat = i + 1 := by omega
      rw [h1, h2]
    simp only [onNextClick, nextElement, hc, hidx, hj]
    rfl
  · intro e2 h1 h2
    have hj : jsIndex s.slides ((i : ℤ) - 1) = some e2 := by
      rw [jsIndex, if_pos (by omega)]
      have hn : ((i : ℤ) - 1).toNat = i - 1 := by omega
      rw [hn, h2]
    simp only [onPreviusClick, previousElement, hc, hidx, hj]
    rfl

/-! ## Controller invariant -/

lemma get?_set_self {α : Type} (l : List α) (i : ℕ) (a : α) (h : i < l.length) :
    (l.set i a).get? i = some a := by
  simp [List.get?_eq_getElem?, List.getElem?_set_self h]

lemma get?_set_other {α : Type} (l : List α) (i j : ℕ) (a : α) (h : i ≠ j) :
    (l.set i a).get? j = l.get? j := by
  simp [List.get?_eq_getElem?, List.getElem?_set_ne h]

/-- The elapsed fraction computed by a tick that fires strictly before the
end time is strictly below 1. -/
lemma fracOf_lt_one (tB tD now : ℕ) (h : ¬ tB + tD ≤ now) : fracOf tB tD now < 1 := by
  rw [fracOf]
  rcases Nat.eq_zero_or_pos tD with h0 | h0
  · simp [h0]
  · rw [div_lt_one (by exact_mod_cast h0)]
    have hlt : now < tB + tD := by omega
    have : (now : ℚ) < (tB : ℚ) + (tD : ℚ) := by exact_mod_cast hlt
    linarith

/-- The coupling invariant of the controller: animatingTo and cancel are null
together, and any unflushed animation is the one the cancel field holds. -/
def CtrlInv (c : Ctrl) : Prop :=
  (c.animatingTo = none ↔ c.cancelIdx = none) ∧
  (∀ i rec, c.anims.get? i = some rec → rec.s.flushed = false → c.cancelIdx = some i)

lemma instCbSt_one (c : Ctrl) :
    instCbSt c 1 = { c with animatingTo := none, cancelIdx := none } := by
  rw [instCbSt, if_pos rfl]

/-- The two shapes endAnimC can take, by the flushed flag of the target. -/
lemma endAnimC_of_flushed (c : Ctrl) (i : ℕ) (rec : AnimRec)
    (hfl : rec.s.flushed = true) :
    endAnimC c i rec =
      ({ c with anims := c.anims.set i { rec with s := ⟨false, false, true⟩ } }, []) := by
  rw [endAnimC, if_pos hfl]

lemma endAnimC_of_unflushed (c : Ctrl) (i : ℕ) (rec : AnimRec)
    (hfl : rec.s.flushed = false) :
    endAnimC c i rec =
      ({ c with
          animatingTo := none
          cancelIdx := none
          anims := c.anims.set i { rec with s := ⟨false, false, true⟩ } },
       [(i, rec.src + (rec.dst - rec.src) * 1)]) := by
  rw [endAnimC, if_neg (by rw [hfl]; exact Bool.false_ne_true), instCbSt_one]

lemma inv_endAnimC (c : Ctrl) (i : ℕ) (rec : AnimRec) (hInv : CtrlInv c)
    (hget : c.anims.get? i = some rec)
    (hci : rec.s.flushed = false → c.cancelIdx = some i) :
    CtrlInv (endAnimC c i rec).1 := by
  have hlen : i < c.anims.length := by
    by_contra hc
    rw [List.get?_eq_none.mpr (by omega)] at hget
    cases hget
  rcases hfl : rec.s.flushed with _ | _
  · have hcid := hci hfl
    have heq := endAnimC_of_unflushed c i rec hfl
    have h1 : (endAnimC c i rec).1.animatingTo = none := by rw [heq]
    have h2 : (endAnimC c i rec).1.cancelIdx = none := by rw [heq]
    have h3 : (endAnimC c i rec).1.anims =
        c.anims.set i { rec with s := ⟨false, false, true⟩ } := by rw [heq]
    refine ⟨by rw [h1, h2]; exact ⟨fun _ => rfl, fun _ => rfl⟩, ?_⟩
    intro j r2 hj hf2
    exfalso
    rw [h3] at hj
    by_cases hij : i = j
    · subst hij
      rw [get?_set_self _ _ _ hlen] at hj
      obtain rfl := Option.some_inj.mp hj
      simp at hf2
    · rw [get?_set_other _ _ _ _ hij] at hj
      have hcj := hInv.2 j r2 hj hf2
      rw [hcid] at hcj
      exact hij (Option.some_inj.mp hcj)
  · have heq := endAnimC_of_flushed c i rec hfl
    have h1 : (endAnimC c i rec).1.animatingTo = c.animatingTo := by rw [heq]
    have h2 : (endAnimC c i rec).1.cancelIdx = c.cancelIdx := by rw [heq]
    have h3 : (endAnimC c i rec).1.anims =
        c.anims.set i { rec with s := ⟨false, false, true⟩ } := by rw [heq]
    refine ⟨by rw [h1, h2]; exact hInv.1, ?_⟩
    intro j r2 hj hf2
    rw [h3] at hj
    rw [h2]
    by_cases hij : i = j
    · subst hij
      rw [get?_set_self _ _ _ hlen] at hj
      obtain rfl := Option.some_inj.mp hj
      simp at hf2
    · rw [get?_set_other _ _ _ _ hij] at hj
      exact hInv.2 j r2 hj hf2

lemma endAnimC_emptiesActive (c : Ctrl) (i : ℕ) (rec : AnimRec) (hInv : CtrlInv c)
    (hcur : c.cancelIdx = some i) :
    ∀ j r2, (endAnimC c i rec).1.anims.get? j = some r2 → r2.s.flushed = true := by
  intro j r2 hj
  have hset : (endAnimC c i rec).1.anims =
      c.anims.set i { rec with s := ⟨false, false, true⟩ } := by
    rcases hfl : rec.s.flushed with _ | _
    · rw [endAnimC_of_unflushed c i rec hfl]
    · rw [endAnimC_of_flushed c i rec hfl]
  rw [hset] at hj
  by_cases hij : i = j
  · subst hij
    by_cases hlen : i < c.anims.length
    · rw [get?_set_self _ _ _ hlen] at hj
      obtain rfl := Option.some_inj.mp hj
      rfl
    · rw [List.get?_eq_none.mpr (by simp only [List.length_set]; omega)] at hj
      cases hj
  · rw [get?_set_other _ _ _ _ hij] at hj
    rcases hf2 : r2.s.flushed with _ | _
    · have := hInv.2 j r2 hj hf2
      rw [hcur] at this
      exact absurd (Option.some_inj.mp this) hij
    · rfl

lemma ctrlInv_append (pre1 : Ctrl) (src dst : ℚ) (tB tD : ℕ)
    (hAll : ∀ j r2, pre1.anims.get? j = some r2 → r2.s.flushed = true) :
    CtrlInv { pre1 with
        animatingTo := some dst
        cancelIdx := some pre1.anims.length
        anims := pre1.anims ++ [(⟨src, dst, tB, tD, SAnim.start⟩ : AnimRec)] } := by
  refine ⟨iff_of_false (by simp) (by simp), ?_⟩
  intro j r2 hj hf2
  have hj2 : (pre1.anims ++ [(⟨src, dst, tB, tD, SAnim.start⟩ : AnimRec)]).get? j =
      some r2 := hj
  rcases lt_trichotomy j pre1.anims.length with hlt | heq | hgt
  · rw [List.get?_append hlt] at hj2
    rw [hAll j r2 hj2] at hf2
    simp at hf2
  · show some pre1.anims.length = some j
    rw [heq]
  · rw [List.get?_eq_none.mpr
      (by simp only [List.length_append, List.length_cons, List.length_nil]; omega)] at hj2
    exact Option.noConfusion hj2

lemma ctrlInv_set (c : Ctrl) (i : ℕ) (rec : AnimRec) (ss : SAnim)
    (hInv : CtrlInv c) (hg : c.anims.get? i = some rec)
    (hfs : ss.flushed = rec.s.flushed) :
    CtrlInv { c with anims := c.anims.set i { rec with s := ss } } := by
  have hlen : i < c.anims.length := by
    by_contra hcc
    rw [List.get?_eq_none.mpr (by omega)] at hg
    cases hg
  refine ⟨hInv.1, ?_⟩
  intro j r2 hj hf2
  have hj2 : (c.anims.set i { rec with s := ss }).get? j = some r2 := hj
  by_cases hij : i = j
  · subst hij
    rw [get?_set_self _ _ _ hlen] at hj2
    obtain rfl := Option.some_inj.mp hj2
    exact hInv.2 i rec hg (by rw [← hfs]; exact hf2)
  · rw [get?_set_other _ _ _ _ hij] at hj2
    exact hInv.2 j r2 hj2 hf2

lemma inv_stepC (ease : ℚ → ℚ) (hE : ∀ q : ℚ, q < 1 → ease q ≠ 1)
    (c : Ctrl) (e : CEv) (hInv : CtrlInv c) : CtrlInv (stepC ease c e).1 := by
  cases e with
  | animate src dst tB tD =>
      rcases hc1 : c.cancelIdx with _ | i0
      · have hAll : ∀ j r2, c.anims.get? j = some r2 → r2.s.flushed = true := by
          intro j r2 hj
          rcases hf : r2.s.flushed with _ | _
          · have := hInv.2 j r2 hj hf
            rw [hc1] at this
            cases this
          · rfl
        simpa [stepC, hc1] using ctrlInv_append c src dst tB tD hAll
      · rcases hg : c.anims.get? i0 with _ | rec
        all_goals
          have hg2 : c.anims[i0]? = (c.anims.get? i0) := (List.get?_eq_getElem? _ _).symm
        · have hAll : ∀ j r2, c.anims.get? j = some r2 → r2.s.flushed = true := by
            intro j r2 hj
            rcases hf : r2.s.flushed with _ | _
            · have hcj := hInv.2 j r2 hj hf
              rw [hc1] at hcj
              obtain rfl := Option.some_inj.mp hcj.symm
              rw [hg] at hj
              exact Option.noConfusion hj
            · rfl
          rw [hg] at hg2
          simpa [stepC, hc1, hg2] using ctrlInv_append c src dst tB tD hAll
        · have hAll := endAnimC_emptiesActive c i0 rec hInv hc1
          rw [hg] at hg2
          simpa [stepC, hc1, hg2] using
            ctrlInv_append (endAnimC c i0 rec).1 src dst tB tD hAll
  | timeout i =>
      rcases hg : c.anims.get? i with _ | rec
      all_goals
        have hg2 : c.anims[i]? = (c.anims.get? i) := (List.get?_eq_getElem? _ _).symm
      all_goals rw [hg] at hg2
      · simpa [stepC, hg2] using hInv
      · rcases ht : rec.s.timeoutActive with _ | _
        · simpa [stepC, hg2, ht] using hInv
        · simpa [stepC, hg2, ht] using
            inv_endAnimC c i rec hInv hg (fun hf => hInv.2 i rec hg hf)
  | cancelCall i =>
      rcases hg : c.anims.get? i with _ | rec
      all_goals
        have hg2 : c.anims[i]? = (c.anims.get? i) := (List.get?_eq_getElem? _ _).symm
      all_goals rw [hg] at hg2
      · simpa [stepC, hg2] using hInv
      · simpa [stepC, hg2] using
          inv_endAnimC c i rec hInv hg (fun hf => hInv.2 i rec hg hf)
  | frame i now =>
      rcases hg : c.anims.get? i with _ | rec
      all_goals
        have hg2 : c.anims[i]? = (c.anims.get? i) := (List.get?_eq_getElem? _ _).symm
      all_goals rw [hg] at hg2
      · simpa [stepC, hg2] using hInv
      · rcases htk : rec.s.tickActive with _ | _
        · simpa [stepC, hg2, htk] using hInv
        · have hlen : i < c.anims.length := by
            by_contra hcc
            rw [List.get?_eq_none.mpr (by omega)] at hg
            cases hg
          have hInv0 : CtrlInv
              { c with anims :=
                  c.anims.set i { rec with s := ⟨false, rec.s.timeoutActive, rec.s.flushed⟩ } } :=
            ctrlInv_set c i rec _ hInv hg rfl
          have hget0 :
              (c.anims.set i { rec with s := ⟨false, rec.s.timeoutActive, rec.s.flushed⟩ }).get? i =
                some { rec with s := ⟨false, rec.s.timeoutActive, rec.s.flushed⟩ } :=
            get?_set_self _ _ _ hlen
          by_cases hend : rec.tBegin + rec.tDur ≤ now
          · simpa [stepC, hg2, htk, hend] using
              inv_endAnimC _ i _ hInv0 hget0 (fun hf => hInv.2 i rec hg hf)
          · rcases hfl : rec.s.flushed with _ | _
            · have hp : ease (fracOf rec.tBegin rec.tDur now) ≠ 1 :=
                hE _ (fracOf_lt_one _ _ _ hend)
              have hfin : CtrlInv
                  { c with anims :=
                      c.anims.set i { rec with s := ⟨true, rec.s.timeoutActive, false⟩ } } :=
                ctrlInv_set c i rec _ hInv hg (by rw [hfl])
              simpa [stepC, hg2, htk, hend, hfl, instCbSt, hp, List.set_set] using hfin
            · simpa [stepC, hg2, htk, hend, hfl] using hInv0

lemma ctrlInv_start : CtrlInv Ctrl.startCtrl :=
  ⟨⟨fun _ => rfl, fun _ => rfl⟩, fun _ _ h _ => Option.noConfusion h⟩

lemma inv_runC (ease : ℚ → ℚ) (hE : ∀ q : ℚ, q < 1 → ease q ≠ 1) :
    ∀ (evs : List CEv) (c : Ctrl), CtrlInv c → CtrlInv (runC ease c evs).1 := by
  intro evs
  induction evs with
  | nil => intro c hInv; exact hInv
  | cons e es ih =>
      intro c hInv
      exact ih (stepC ease c e).1 (inv_stepC ease hE c e hInv)

/-- C8: after any sequence of events starting from a fresh controller, the
animatingTo field is null exactly when the cancel field is null, so
isAnimating holds exactly when a cancel handle for an in-flight animation
exists. -/
theorem animatingTo_cancel_coupling (ease : ℚ → ℚ)
    (hE : ∀ q : ℚ, q < 1 → ease q ≠ 1) (evs : List CEv) :
    ((runC ease Ctrl.startCtrl evs).1.animatingTo = none ↔
        (runC ease Ctrl.startCtrl evs).1.cancelIdx = none) ∧
    ((runC ease Ctrl.startCtrl evs).1.isAnimating = true ↔
        ¬ (runC ease Ctrl.startCtrl evs).1.cancelIdx = none) := by
  have h := inv_runC ease hE evs Ctrl.startCtrl ctrlInv_start
  refine ⟨h.1, ?_⟩
  rw [Ctrl.isAnimating, Option.isSome_iff_ne_none]
  exact not_congr h.1

/-- Concrete instantiation of the coupling theorem after one animate call. -/
theorem animatingTo_cancel_coupling_witness :
    ((runC easeInOutCubic Ctrl.startCtrl [CEv.animate 0 100 0 1000]).1.animatingTo = none ↔
        (runC easeInOutCubic Ctrl.startCtrl [CEv.animate 0 100 0 1000]).1.cancelIdx = none) ∧
    ((runC easeInOutCubic Ctrl.startCtrl [CEv.animate 0 100 0 1000]).1.isAnimating = true ↔
        ¬ (runC easeInOutCubic Ctrl.startCtrl [CEv.animate 0 100 0 1000]).1.cancelIdx = none) :=
  animatingTo_cancel_coupling easeInOutCubic
    (fun _ hq => easeInOutCubic_ne_one hq) [CEv.animate 0 100 0 1000]

/-- C6: after any sequence of events starting from a fresh controller, at
most one animation is in flight: any two unflushed animations coincide, and
the unflushed animation is the one held by the cancel field; a new animate
settles the old animation synchronously (see the animate-interrupts
theorem), so two animations are never simultaneously live. -/
theorem at_most_one_animation (ease : ℚ → ℚ)
    (hE : ∀ q : ℚ, q < 1 → ease q ≠ 1) (evs : List CEv) (i j : ℕ)
    (r1 r2 : AnimRec)
    (hi : (runC ease Ctrl.startCtrl evs).1.anims.get? i = some r1)
    (hj : (runC ease Ctrl.startCtrl evs).1.anims.get? j = some r2)
    (hfi : r1.s.flushed = false) (hfj : r2.s.flushed = false) :
    i = j ∧ (runC ease Ctrl.startCtrl evs).1.cancelIdx = some i := by
  have h := inv_runC ease hE evs Ctrl.startCtrl ctrlInv_start
  have h1 := h.2 i r1 hi hfi
  have h2 := h.2 j r2 hj hfj
  rw [h1] at h2
  exact ⟨Option.some_inj.mp h2, h1⟩

/-- Concrete instantiation of the single-animation theorem after one animate
call. -/
theorem at_most_one_animation_witness :
    (0 : ℕ) = 0 ∧
    (runC easeInOutCubic Ctrl.startCtrl [CEv.animate 0 100 0 1000]).1.cancelIdx = some 0 :=
  at_most_one_animation easeInOutCubic (fun _ hq => easeInOutCubic_ne_one hq)
    [CEv.animate 0 100 0 1000] 0 0
    ⟨0, 100, 0, 1000, SAnim.start⟩ ⟨0, 100, 0, 1000, SAnim.start⟩
    rfl rfl rfl rfl

/-- C3: an animate call while an unflushed animation is in flight first
invokes the old animation's callback with exactly its target value and
clears the old animation's timers, and only then installs the new animation;
the new animation alone is referenced by the cancel field (no queuing). -/
theorem animate_interrupts_prior (ease : ℚ → ℚ) (c : Ctrl) (i : ℕ)
    (rec : AnimRec) (hci : c.cancelIdx = some i)
    (hget : c.anims.get? i = some rec) (hunfl : rec.s.flushed = false)
    (src dst : ℚ) (tB tD : ℕ) :
    (stepC ease c (CEv.animate src dst tB tD)).2 = [(i, rec.dst)] ∧
    (stepC ease c (CEv.animate src dst tB tD)).1.anims =
      (c.anims.set i { rec with s := ⟨false, false, true⟩ }) ++
        [(⟨src, dst, tB, tD, SAnim.start⟩ : AnimRec)] ∧
    (stepC ease c (CEv.animate src dst tB tD)).1.cancelIdx =
      some c.anims.length ∧
    (stepC ease c (CEv.animate src dst tB tD)).1.animatingTo = some dst := by
  have heq := endAnimC_of_unflushed c i rec hunfl
  have hval : rec.src + (rec.dst - rec.src) * 1 = rec.dst := by ring
  have hget2 : c.anims[i]? = some rec := by
    rw [← List.get?_eq_getElem?]; exact hget
  refine ⟨?_, ?_, ?_, ?_⟩ <;>
    simp [stepC, hci, hget2, heq, hval, List.length_set]

/-- A controller with one unflushed animation in flight, for the witness. -/
def ctrlBusy : Ctrl :=
  ⟨some 100, some 0, [⟨0, 100, 0, 1000, SAnim.start⟩]⟩

/-- Concrete instantiation of the interruption theorem: a second animate
call on a busy controller emits exactly the old target 100 for the old
animation, then installs the new animation. -/
theorem animate_interrupts_prior_witness :
    (stepC easeInOutCubic ctrlBusy (CEv.animate 100 250 50 1000)).2 = [(0, (100 : ℚ))] ∧
    (stepC easeInOutCubic ctrlBusy (CEv.animate 100 250 50 1000)).1.anims =
      (ctrlBusy.anims.set 0
          { (⟨0, 100, 0, 1000, SAnim.start⟩ : AnimRec) with s := ⟨false, false, true⟩ }) ++
        [(⟨100, 250, 50, 1000, SAnim.start⟩ : AnimRec)] ∧
    (stepC easeInOutCubic ctrlBusy (CEv.animate 100 250 50 1000)).1.cancelIdx =
      some ctrlBusy.anims.length ∧
    (stepC easeInOutCubic ctrlBusy (CEv.animate 100 250 50 1000)).1.animatingTo =
      some 250 :=
  animate_interrupts_prior easeInOutCubic ctrlBusy 0
    ⟨0, 100, 0, 1000, SAnim.start⟩ rfl rfl rfl 100 250 50 1000

/-- A slide whose left offset is 0. -/
def slideA : Elem := ⟨none, some 0, none, none, none, none, none, none, none, none, none, none⟩

/-- A slide whose left offset is 100. -/
def slideB : Elem := ⟨none, some 100, none, none, none, none, none, none, none, none, none, none⟩

/-- A two-slide slider scrolled to 50, not animating: its current element is
the second (last) slide. -/
def sliderMid : SliderSt := ⟨[slideA, slideB], 50, none⟩

/-- A two-slide slider scrolled to 0, not animating: its current element is
the first slide. -/
def sliderHome : SliderSt := ⟨[slideA, slideB], 0, none⟩

/-- Concrete instantiation of the currentElement specification: at scroll 50
the current element is the second slide and the first slide lies left of the
scroll position. -/
theorem currentElement_spec_witness :
    effectiveScroll sliderMid ≤ (getOffset slideB).left ∧
    ∃ pre suf, sliderMid.slides = pre ++ slideB :: suf ∧
      ∀ p ∈ pre, (getOffset p).left < effectiveScroll sliderMid :=
  (currentElement_spec sliderMid).1 slideB rfl

/-- Concrete instantiation of the boundary no-op theorem: next at the last
slide and previous at the first slide both issue no animation command. -/
theorem click_noop_at_ends_witness :
    onNextClick sliderMid = Except.ok none ∧
    onPreviusClick sliderHome = Except.ok none :=
  ⟨(click_noop_at_ends sliderMid slideB (by decide) rfl).1 (by decide),
   (click_noop_at_ends sliderHome slideA (by decide) rfl).2 (by decide)⟩

/-- Concrete instantiation of the click-animation theorem: next at the first
slide animates from scroll 0 to the second slide's offset over 1000ms. -/
theorem click_starts_animation_witness :
    onNextClick sliderHome =
      Except.ok (some ⟨sliderHome.scrollLeft, (getOffset slideB).left, 1000⟩) :=
  (click_starts_animation sliderHome slideA 0 (by decide) rfl
    (by decide)).1 slideB (by decide)

/-- Concrete instantiation of the geometry totality theorem on an element
with an absent offsetLeft and a document with every scroll property falsy. -/
theorem geometry_getters_total_witness :
    (getOffset ⟨none, none, none, none, none, none, none, none, none, none, none, none⟩).left = 0 ∧
    (getScroll ⟨none, some 0, none, none, none, none, none, none, none, none⟩ none).left = 0 :=
  ⟨by
    have h := (geometry_getters_total
      ⟨none, none, none, none, none, none, none, none, none, none⟩
      ⟨none, none, none, none, none, none, none, none, none, none, none, none⟩).1.2.1
    simpa using h,
   (geometry_getters_total
      ⟨none, some 0, none, none, none, none, none, none, none, none⟩
      ⟨none, none, none, none, none, none, none, none, none, none, none, none⟩).2.2.2.2.1
     (by decide) (by decide) (by decide)⟩
